import Mathlib

/-!
Shallow embedding of the TI-99 keyboard-to-USB matrix scanner
(tiarduino.ino).  The electrical side is modelled by a pin-state record
`HW` (direction and output level of every GPIO line) together with an
electrical input `CycleInput` giving which matrix switches are closed
during a polling cycle.  Every Arduino call (pinMode, digitalWrite,
digitalRead, Keyboard.press, Keyboard.releaseAll, delay) is recorded in
an operation trace `List Op`, so that both the event-sink behaviour and
the instant-by-instant pin ordering can be stated and proved.
-/

namespace TiKeyboard

/-! Constants from the source header. -/

def ROWS : Nat := 6
def COLS : Nat := 8
def SHIFT : Nat := 5
def CTRL : Nat := 6
def FCTN : Nat := 7
def KBD_DELAY : Nat := 150
def RPT_DELAY : Nat := 50

def enablePin : Nat := 13
def alphaLockRowPin : Nat := 7

/-- Key codes of the Arduino Keyboard library used by the sketch. -/
def KEY_LEFT_CTRL : Nat := 128
def KEY_LEFT_SHIFT : Nat := 129
def KEY_LEFT_ALT : Nat := 130
def KEY_CAPS_LOCK : Nat := 193

/-- The `keys[ROWS][COLS]` character table, as ASCII codes
(47 is the slash, 59 the semicolon, 10 the newline, 0 the null char). -/
def keys : List (List Nat) :=
  [[47, 59, 112, 48, 122, 97, 113, 49],
   [46, 108, 111, 57, 120, 115, 119, 50],
   [44, 107, 105, 56, 99, 100, 101, 51],
   [109, 106, 117, 55, 118, 102, 114, 52],
   [110, 104, 121, 54, 98, 103, 116, 53],
   [61, 32, 10, 0, 0, 0, 0, 0]]

/-- `keys[r][c]` as a total lookup. -/
def keyAt (r c : Nat) : Nat := (keys.getD r []).getD c 0

/-- `int columns[] = {8, 8, 8, 8, 8, 3}`. -/
def columns : List Nat := [8, 8, 8, 8, 8, 3]

/-- `int rowPins[ROWS] = {9, A1, A2, A3, 10, A0}`; on the target board
A0..A3 are digital pins 18..21. -/
def rowPins : List Nat := [9, 19, 20, 21, 10, 18]

/-- `int colPins[COLS] = {6, 5, 2, 3, 12, 4, 11, 8}`. -/
def colPins : List Nat := [6, 5, 2, 3, 12, 4, 11, 8]

def rowPin (r : Nat) : Nat := rowPins.getD r 0

def colPin (c : Nat) : Nat := colPins.getD c 0

/-! The pin-level hardware model. -/

/-- Direction/pull configuration of one GPIO line. -/
inductive PMode where
  | input
  | inputPullup
  | output
deriving DecidableEq

/-- State of all GPIO lines: direction and driven level (the level bit is
the PORT register bit, shared by output level and pull-up selection, as on
the AVR parts the sketch targets). -/
@[ext] structure HW where
  mode : Nat → PMode
  level : Nat → Bool

/-- `pinMode(p, m)`: `INPUT` clears the PORT bit, `INPUT_PULLUP` sets it,
`OUTPUT` keeps the current level. -/
def pinModeSet (hw : HW) (p : Nat) (m : PMode) : HW :=
  match m with
  | PMode.input =>
      ⟨fun q => if q = p then PMode.input else hw.mode q,
       fun q => if q = p then false else hw.level q⟩
  | PMode.inputPullup =>
      ⟨fun q => if q = p then PMode.inputPullup else hw.mode q,
       fun q => if q = p then true else hw.level q⟩
  | PMode.output =>
      ⟨fun q => if q = p then PMode.output else hw.mode q, hw.level⟩

/-- `digitalWrite(p, LOW)`. -/
def digitalWriteLow (hw : HW) (p : Nat) : HW :=
  ⟨hw.mode, fun q => if q = p then false else hw.level q⟩

/-- A line is electrically asserted when it is an output driven low. -/
def pinAsserted (hw : HW) (p : Nat) : Bool :=
  decide (hw.mode p = PMode.output) && !hw.level p

/-- Electrical input for one polling cycle: the enable line level, which
matrix switches (row, column) are closed, and whether the alpha-lock
switch is closed. -/
structure CycleInput where
  enable : Bool
  cell : Nat → Nat → Bool
  lockClosed : Bool

/-- `digitalRead(colPins[c])`: a column line (held up by its pull-up)
reads LOW exactly when a closed switch connects it to an asserted row
line; column 7 is additionally wired to the alpha-lock line.  The result
`true` means HIGH (not pressed). -/
def readCol (hw : HW) (inp : CycleInput) (c : Nat) : Bool :=
  !(((List.range ROWS).any fun r => pinAsserted hw (rowPin r) && inp.cell r c) ||
    (decide (c = 7) && pinAsserted hw alphaLockRowPin && inp.lockClosed))

/-! The operation trace. -/

/-- One observable operation of the sketch: a pin reconfiguration, a pin
read, a call on the Keyboard event sink, or a blocking delay. -/
inductive Op where
  | pinInput (p : Nat)
  | pinInputPullup (p : Nat)
  | pinOutput (p : Nat)
  | writeLow (p : Nat)
  | readPin (p : Nat)
  | press (k : Nat)
  | release (k : Nat)
  | releaseAll
  | delayMs (ms : Nat)
deriving DecidableEq

/-- Effect of one trace operation on the pin state. -/
def stepOp (hw : HW) : Op → HW
  | Op.pinInput p => pinModeSet hw p PMode.input
  | Op.pinInputPullup p => pinModeSet hw p PMode.inputPullup
  | Op.pinOutput p => pinModeSet hw p PMode.output
  | Op.writeLow p => digitalWriteLow hw p
  | _ => hw

/-- Operations that leave the pin state unchanged. -/
def hwNeutral : Op → Bool
  | Op.pinInput _ => false
  | Op.pinInputPullup _ => false
  | Op.pinOutput _ => false
  | Op.writeLow _ => false
  | _ => true

/-- The subsequence of pin-reconfiguration operations of a trace. -/
def hwOps (t : List Op) : List Op := t.filter fun op => !hwNeutral op

/-- Calls that reach the Keyboard event sink. -/
def isSink : Op → Bool
  | Op.press _ => true
  | Op.release _ => true
  | Op.releaseAll => true
  | _ => false

def isDelay : Op → Bool
  | Op.delayMs _ => true
  | _ => false

/-- The event-sink calls of a trace. -/
def sinkOps (t : List Op) : List Op := t.filter isSink

/-- The event-sink calls of a trace together with the delays, so that the
hold duration between a press and the following release is visible. -/
def emitOps (t : List Op) : List Op := t.filter fun op => isSink op || isDelay op

/-- Keys held at the sink after a trace, starting from `held`. -/
def heldStep (held : List Nat) : Op → List Nat
  | Op.press k => held ++ [k]
  | Op.release k => held.erase k
  | Op.releaseAll => []
  | _ => held

def heldAfter (held : List Nat) (t : List Op) : List Nat := t.foldl heldStep held

/-! The functions of the sketch. -/

/-- `scan_row(previousRow, currentRow)`. -/
def scan_row (hw : HW) (previousRow currentRow : Nat) : HW × List Op :=
  let hw1 := pinModeSet hw (rowPin previousRow) PMode.input
  let hw2 := pinModeSet hw1 (rowPin currentRow) PMode.output
  let hw3 := digitalWriteLow hw2 (rowPin currentRow)
  (hw3, [Op.pinInput (rowPin previousRow), Op.pinOutput (rowPin currentRow),
         Op.writeLow (rowPin currentRow)])

/-- `disable_lastrow()`. -/
def disable_lastrow (hw : HW) : HW × List Op :=
  (pinModeSet hw (rowPin (ROWS - 1)) PMode.input, [Op.pinInput (rowPin (ROWS - 1))])

/-- `checkAlphaLock()`; the `static int alphaLock` latch is passed and
returned explicitly. -/
def checkAlphaLock (hw : HW) (inp : CycleInput) (alphaLock : Bool) :
    Bool × HW × List Op :=
  let d := disable_lastrow hw
  let hw2 := pinModeSet d.1 alphaLockRowPin PMode.output
  let hw3 := digitalWriteLow hw2 alphaLockRowPin
  let alphaLockOff := readCol hw3 inp 7
  let hw4 := pinModeSet hw3 alphaLockRowPin PMode.inputPullup
  let probe := d.2 ++ [Op.pinOutput alphaLockRowPin, Op.writeLow alphaLockRowPin,
                       Op.readPin (colPin 7), Op.pinInputPullup alphaLockRowPin]
  if !alphaLockOff && !alphaLock then
    (true, hw4, probe ++ [Op.press KEY_CAPS_LOCK, Op.release KEY_CAPS_LOCK])
  else if alphaLockOff && alphaLock then
    (false, hw4, probe ++ [Op.press KEY_CAPS_LOCK, Op.release KEY_CAPS_LOCK])
  else
    (alphaLock, hw4, probe)

/-- `modifierPressed()`: probes the three modifier columns in priority
order with early return, against the current pin state. -/
def modifierPressed (hw : HW) (inp : CycleInput) : Nat × List Op :=
  if !readCol hw inp SHIFT then
    (SHIFT, [Op.readPin (colPin SHIFT)])
  else if !readCol hw inp CTRL then
    (CTRL, [Op.readPin (colPin SHIFT), Op.readPin (colPin CTRL)])
  else if !readCol hw inp FCTN then
    (FCTN, [Op.readPin (colPin SHIFT), Op.readPin (colPin CTRL), Op.readPin (colPin FCTN)])
  else
    (0, [Op.readPin (colPin SHIFT), Op.readPin (colPin CTRL), Op.readPin (colPin FCTN)])

/-- `pressModifier(modifier)`. -/
def pressModifier (modifier : Nat) : List Op :=
  if modifier = SHIFT then [Op.press KEY_LEFT_SHIFT]
  else if modifier = CTRL then [Op.press KEY_LEFT_CTRL]
  else if modifier = FCTN then [Op.press KEY_LEFT_ALT]
  else []

/-- The cross-cycle globals of the sketch: `previousKey`, `count`,
`idlecount`, and the `static` alpha-lock latch. -/
structure ScanState where
  previousKey : Nat
  count : Nat
  idlecount : Nat
  alphaLock : Bool
deriving DecidableEq

/-- Body of the inner column loop of `loop()` for cell `(i, j)`:
read the column, and on an asserted cell decide between fresh press,
typematic repeat and sustained hold, always ending the asserted case
with `Keyboard.releaseAll()` and `previousKey = currentKey`. -/
def processColumn (inp : CycleInput) (modifier : Nat) (hw : HW) (i j : Nat)
    (s : ScanState) : ScanState × List Op :=
  if !readCol hw inp j then
    let currentKey := keyAt i j
    if currentKey ≠ s.previousKey ∨ s.idlecount ≥ 10000 then
      ({ s with previousKey := currentKey, count := 0, idlecount := 0 },
       Op.readPin (colPin j) ::
         (pressModifier modifier ++
          [Op.press currentKey, Op.delayMs KBD_DELAY, Op.releaseAll]))
    else
      let newCount := s.count + 1
      if newCount > 150 then
        ({ s with previousKey := currentKey, count := newCount, idlecount := 0 },
         Op.readPin (colPin j) ::
           (pressModifier modifier ++
            [Op.press currentKey, Op.delayMs RPT_DELAY, Op.releaseAll]))
      else
        ({ s with previousKey := currentKey, count := newCount },
         [Op.readPin (colPin j), Op.releaseAll])
  else
    ({ s with idlecount := s.idlecount + 1 }, [Op.readPin (colPin j)])

/-- The inner column loop over a list of column indices. -/
def scanCols (inp : CycleInput) (modifier : Nat) (hw : HW) (i : Nat) :
    List Nat → ScanState → ScanState × List Op
  | [], s => (s, [])
  | j :: rest, s =>
    let c := processColumn inp modifier hw i j s
    let cc := scanCols inp modifier hw i rest c.1
    (cc.1, c.2 ++ cc.2)

/-- One iteration of the row loop: `scan_row(previousRow, i)` followed by
the column loop over `columns[i]` columns. -/
def processRow (inp : CycleInput) (modifier : Nat) (hw : HW) (prev i : Nat)
    (s : ScanState) : ScanState × HW × List Op :=
  let sr := scan_row hw prev i
  let sc := scanCols inp modifier sr.1 i (List.range (columns.getD i 0)) s
  (sc.1, sr.1, sr.2 ++ sc.2)

/-- The row loop over a list of row indices, threading `previousRow`. -/
def scanRows (inp : CycleInput) (modifier : Nat) :
    List Nat → Nat → HW → ScanState → ScanState × HW × List Op
  | [], _, hw, s => (s, hw, [])
  | i :: rest, prev, hw, s =>
    let r := processRow inp modifier hw prev i s
    let rr := scanRows inp modifier rest i r.2.1 r.1
    (rr.1, rr.2.1, r.2.2 ++ rr.2.2)

/-- One invocation of `loop()`: read the enable pin; when enabled run the
modifier probe, the alpha-lock probe and the matrix pass in that order,
otherwise do nothing. -/
def loop (s : ScanState) (hw : HW) (inp : CycleInput) : ScanState × HW × List Op :=
  if inp.enable then
    let m := modifierPressed hw inp
    let a := checkAlphaLock hw inp s.alphaLock
    let r := scanRows inp m.1 (List.range ROWS) (ROWS - 1) a.2.1
               { s with alphaLock := a.1 }
    (r.1, r.2.1, Op.readPin enablePin :: (m.2 ++ a.2.2 ++ r.2.2))
  else
    (s, hw, [Op.readPin enablePin])

/-! Startup configuration. -/

/-- Power-on reset state of the GPIO block: everything an input, all PORT
bits clear. -/
def powerOn : HW := ⟨fun _ => PMode.input, fun _ => false⟩

/-- `setup_pins()`. -/
def setup_pins (hw : HW) : HW :=
  let hw1 := pinModeSet hw enablePin PMode.inputPullup
  let hw2 := (List.range COLS).foldl
    (fun h c => pinModeSet h (colPin c) PMode.inputPullup) hw1
  let hw3 := (List.range ROWS).foldl
    (fun h r => pinModeSet h (rowPin r) PMode.input) hw2
  pinModeSet hw3 alphaLockRowPin PMode.inputPullup

/-- `setup()`: configure the pins, then activate the last row for the
first run. -/
def setup (hw : HW) : HW :=
  let hw1 := setup_pins hw
  let hw2 := pinModeSet hw1 (rowPin (ROWS - 1)) PMode.output
  digitalWriteLow hw2 (rowPin (ROWS - 1))

/-- Pin state right after `setup()`, which is also the pin state at the
start of every later cycle (`loop_hw_fixed` below). -/
def hwInit : HW := setup powerOn

/-- Pin state after the alpha-lock probe of a cycle starting at
`hwInit`: last row floated again, lock line restored to a pull-up. -/
def lockHW : HW :=
  pinModeSet
    (digitalWriteLow
      (pinModeSet (pinModeSet hwInit (rowPin (ROWS - 1)) PMode.input)
        alphaLockRowPin PMode.output)
      alphaLockRowPin)
    alphaLockRowPin PMode.inputPullup

/-- Pin state while row `i` of a pass is being scanned. -/
def rowHW : Nat → HW
  | 0 => (scan_row lockHW (ROWS - 1) 0).1
  | n + 1 => (scan_row (rowHW n) n (n + 1)).1

/-! Instant-by-instant invariant checking over a trace. -/

/-- Number of row lines currently asserted. -/
def rowsAsserted (hw : HW) : Nat :=
  ((List.range ROWS).filter fun r => pinAsserted hw (rowPin r)).length

/-- At most one row line asserted, and the lock line is only asserted
while no row line is. -/
def singleRowOk (hw : HW) : Bool :=
  decide (rowsAsserted hw ≤ 1) &&
    (!pinAsserted hw alphaLockRowPin || decide (rowsAsserted hw = 0))

/-- `singleRowOk` holds before, between and after all operations of a
trace. -/
def checkTrace (hw : HW) : List Op → Bool
  | [] => singleRowOk hw
  | op :: t => singleRowOk hw && checkTrace (stepOp hw op) t

/-- The pin-reconfiguration sequence of one matrix pass over the given
row indices. -/
def scanSeqOps : List Nat → Nat → List Op
  | [], _ => []
  | i :: rest, prev =>
    [Op.pinInput (rowPin prev), Op.pinOutput (rowPin i), Op.writeLow (rowPin i)] ++
      scanSeqOps rest i

/-- The pin-reconfiguration sequence of the alpha-lock probe. -/
def lockProbeOps : List Op :=
  [Op.pinInput (rowPin (ROWS - 1)), Op.pinOutput alphaLockRowPin,
   Op.writeLow alphaLockRowPin, Op.pinInputPullup alphaLockRowPin]

/-! Concrete cycle inputs used in witnesses and scenario runs. -/

/-- Enabled, key `q` held at cell (0, 6), nothing else. -/
def inpQ : CycleInput :=
  { enable := true, cell := fun r c => decide (r = 0 ∧ c = 6), lockClosed := false }

/-- Enabled, no switch closed at all. -/
def inpNone : CycleInput :=
  { enable := true, cell := fun _ _ => false, lockClosed := false }

/-- Disabled, with a key and the lock switch closed. -/
def inpOff : CycleInput :=
  { enable := false, cell := fun r c => decide (r = 0 ∧ c = 6), lockClosed := true }

/-- Enabled, only the SHIFT modifier cell (5, 5) closed. -/
def inpShiftOnly : CycleInput :=
  { enable := true, cell := fun r c => decide (r = 5 ∧ c = 5), lockClosed := false }

/-- Zero-initialized cross-cycle state. -/
def s0 : ScanState := { previousKey := 0, count := 0, idlecount := 0, alphaLock := false }

/-- Emission behaviour (sink calls and delays) of `n` consecutive cycles
holding key `q`, starting from state `s`; the pin state is `hwInit` at
the start of every cycle by `loop_hw_fixed`. -/
def runQ : Nat → ScanState → List (List Op)
  | 0, _ => []
  | n + 1, s =>
    match loop s hwInit inpQ with
    | (s1, _, t) => emitOps t :: runQ n s1

/-- Pin state produced by a pass over the given rows, starting from `hw`. -/
def applyRows : List Nat → Nat → HW → HW
  | [], _, hw => hw
  | i :: rest, prev, hw => applyRows rest i (scan_row hw prev i).1

/-! Helper lemmas. -/

lemma range6 : List.range 6 = [0, 1, 2, 3, 4, 5] := by rfl

lemma range8 : List.range 8 = [0, 1, 2, 3, 4, 5, 6, 7] := by rfl

lemma stepOp_neutral (hw : HW) (op : Op) (h : hwNeutral op = true) :
    stepOp hw op = hw := by
  cases op <;> simp_all [hwNeutral, stepOp]

lemma hwOps_append (a b : List Op) : hwOps (a ++ b) = hwOps a ++ hwOps b := by
  simp [hwOps, List.filter_append]

lemma checkTrace_dead (hw : HW) (t : List Op) (h : singleRowOk hw = false) :
    checkTrace hw t = false := by
  cases t <;> simp [checkTrace, h]

lemma checkTrace_filter (t : List Op) : ∀ hw, checkTrace hw t = checkTrace hw (hwOps t) := by
  induction t with
  | nil => intro hw; rfl
  | cons op t ih =>
    intro hw
    cases hn : hwNeutral op
    · have hcons : hwOps (op :: t) = op :: hwOps t := by
        simp [hwOps, List.filter_cons, hn]
      rw [hcons]
      simp only [checkTrace]
      rw [ih]
    · have hcons : hwOps (op :: t) = hwOps t := by
        simp [hwOps, List.filter_cons, hn]
      rw [hcons]
      cases hok : singleRowOk hw
      · rw [checkTrace_dead hw _ hok, checkTrace_dead hw _ hok]
      · simp only [checkTrace, stepOp_neutral hw op hn, hok, Bool.true_and]
        rw [ih]

@[simp] lemma hwOps_nil : hwOps [] = [] := rfl

@[simp] lemma hwOps_cons_readPin (p : Nat) (t : List Op) :
    hwOps (Op.readPin p :: t) = hwOps t := by
  simp [hwOps, List.filter_cons, hwNeutral]

@[simp] lemma hwOps_cons_press (k : Nat) (t : List Op) :
    hwOps (Op.press k :: t) = hwOps t := by
  simp [hwOps, List.filter_cons, hwNeutral]

@[simp] lemma hwOps_cons_release (k : Nat) (t : List Op) :
    hwOps (Op.release k :: t) = hwOps t := by
  simp [hwOps, List.filter_cons, hwNeutral]

@[simp] lemma hwOps_cons_releaseAll (t : List Op) :
    hwOps (Op.releaseAll :: t) = hwOps t := by
  simp [hwOps, List.filter_cons, hwNeutral]

@[simp] lemma hwOps_cons_delayMs (ms : Nat) (t : List Op) :
    hwOps (Op.delayMs ms :: t) = hwOps t := by
  simp [hwOps, List.filter_cons, hwNeutral]

@[simp] lemma hwOps_cons_pinInput (p : Nat) (t : List Op) :
    hwOps (Op.pinInput p :: t) = Op.pinInput p :: hwOps t := by
  simp [hwOps, List.filter_cons, hwNeutral]

@[simp] lemma hwOps_cons_pinInputPullup (p : Nat) (t : List Op) :
    hwOps (Op.pinInputPullup p :: t) = Op.pinInputPullup p :: hwOps t := by
  simp [hwOps, List.filter_cons, hwNeutral]

@[simp] lemma hwOps_cons_pinOutput (p : Nat) (t : List Op) :
    hwOps (Op.pinOutput p :: t) = Op.pinOutput p :: hwOps t := by
  simp [hwOps, List.filter_cons, hwNeutral]

@[simp] lemma hwOps_cons_writeLow (p : Nat) (t : List Op) :
    hwOps (Op.writeLow p :: t) = Op.writeLow p :: hwOps t := by
  simp [hwOps, List.filter_cons, hwNeutral]

lemma pressModifier_hwOps (m : Nat) : hwOps (pressModifier m) = [] := by
  unfold pressModifier
  split_ifs <;> rfl

lemma processColumn_hwOps (inp : CycleInput) (m : Nat) (hw : HW) (i j : Nat)
    (s : ScanState) : hwOps (processColumn inp m hw i j s).2 = [] := by
  simp only [processColumn]
  split_ifs <;> simp [hwOps_append, pressModifier_hwOps]

lemma scanCols_hwOps (inp : CycleInput) (m : Nat) (hw : HW) (i : Nat) :
    ∀ (l : List Nat) (s : ScanState), hwOps (scanCols inp m hw i l s).2 = [] := by
  intro l
  induction l with
  | nil => intro s; rfl
  | cons j rest ih =>
    intro s
    simp only [scanCols]
    rw [hwOps_append, processColumn_hwOps, ih]
    rfl

lemma processRow_hwOps (inp : CycleInput) (m : Nat) (hw : HW) (prev i : Nat)
    (s : ScanState) :
    hwOps (processRow inp m hw prev i s).2.2 =
      [Op.pinInput (rowPin prev), Op.pinOutput (rowPin i), Op.writeLow (rowPin i)] := by
  simp only [processRow, scan_row]
  rw [hwOps_append, scanCols_hwOps]
  simp [hwOps, List.filter_cons, hwNeutral]

lemma scanRows_hwOps (inp : CycleInput) (m : Nat) :
    ∀ (l : List Nat) (prev : Nat) (hw : HW) (s : ScanState),
      hwOps (scanRows inp m l prev hw s).2.2 = scanSeqOps l prev := by
  intro l
  induction l with
  | nil => intro prev hw s; rfl
  | cons i rest ih =>
    intro prev hw s
    simp only [scanRows, scanSeqOps]
    rw [hwOps_append, processRow_hwOps, ih]

lemma modifierPressed_hwOps (hw : HW) (inp : CycleInput) :
    hwOps (modifierPressed hw inp).2 = [] := by
  unfold modifierPressed
  split_ifs <;> rfl

lemma checkAlphaLock_hwOps (hw : HW) (inp : CycleInput) (aL : Bool) :
    hwOps (checkAlphaLock hw inp aL).2.2 = lockProbeOps := by
  simp only [checkAlphaLock, disable_lastrow]
  split_ifs <;> simp [hwOps_append, lockProbeOps]

lemma loop_hwOps (s : ScanState) (inp : CycleInput) (h : inp.enable = true) :
    hwOps ((loop s hwInit inp).2.2) =
      lockProbeOps ++ scanSeqOps (List.range ROWS) (ROWS - 1) := by
  simp only [loop, h, if_true]
  rw [hwOps_cons_readPin, hwOps_append, hwOps_append, modifierPressed_hwOps,
      checkAlphaLock_hwOps, scanRows_hwOps]
  rfl

lemma checkAlphaLock_hwOut (hw : HW) (inp : CycleInput) (aL : Bool) :
    (checkAlphaLock hw inp aL).2.1 =
      pinModeSet
        (digitalWriteLow
          (pinModeSet (pinModeSet hw (rowPin (ROWS - 1)) PMode.input)
            alphaLockRowPin PMode.output)
          alphaLockRowPin)
        alphaLockRowPin PMode.inputPullup := by
  simp only [checkAlphaLock, disable_lastrow]
  split_ifs <;> rfl

lemma scanRows_hwOut (inp : CycleInput) (m : Nat) :
    ∀ (l : List Nat) (prev : Nat) (hw : HW) (s : ScanState),
      (scanRows inp m l prev hw s).2.1 = applyRows l prev hw := by
  intro l
  induction l with
  | nil => intro prev hw s; rfl
  | cons i rest ih =>
    intro prev hw s
    simp only [scanRows, applyRows, processRow]
    rw [ih]

lemma rows_return_hwInit : applyRows (List.range ROWS) (ROWS - 1) lockHW = hwInit := by
  have h : ∀ p, (applyRows (List.range ROWS) (ROWS - 1) lockHW).mode p = hwInit.mode p ∧
      (applyRows (List.range ROWS) (ROWS - 1) lockHW).level p = hwInit.level p := by
    intro p
    by_cases h1 : p = 13
    · subst h1; exact ⟨by decide, by decide⟩
    by_cases h2 : p = 6
    · subst h2; exact ⟨by decide, by decide⟩
    by_cases h3 : p = 5
    · subst h3; exact ⟨by decide, by decide⟩
    by_cases h4 : p = 2
    · subst h4; exact ⟨by decide, by decide⟩
    by_cases h5 : p = 3
    · subst h5; exact ⟨by decide, by decide⟩
    by_cases h6 : p = 12
    · subst h6; exact ⟨by decide, by decide⟩
    by_cases h7 : p = 4
    · subst h7; exact ⟨by decide, by decide⟩
    by_cases h8 : p = 11
    · subst h8; exact ⟨by decide, by decide⟩
    by_cases h9 : p = 8
    · subst h9; exact ⟨by decide, by decide⟩
    by_cases h10 : p = 9
    · subst h10; exact ⟨by decide, by decide⟩
    by_cases h11 : p = 19
    · subst h11; exact ⟨by decide, by decide⟩
    by_cases h12 : p = 20
    · subst h12; exact ⟨by decide, by decide⟩
    by_cases h13 : p = 21
    · subst h13; exact ⟨by decide, by decide⟩
    by_cases h14 : p = 10
    · subst h14; exact ⟨by decide, by decide⟩
    by_cases h15 : p = 18
    · subst h15; exact ⟨by decide, by decide⟩
    by_cases h16 : p = 7
    · subst h16; exact ⟨by decide, by decide⟩
    refine ⟨?_, ?_⟩ <;>
      simp [applyRows, range6, range8, scan_row, lockHW, hwInit, setup, setup_pins,
        powerOn, pinModeSet, digitalWriteLow, rowPin, colPin, rowPins, colPins,
        alphaLockRowPin, enablePin, ROWS, COLS, h1, h2, h3, h4, h5, h6, h7, h8, h9,
        h10, h11, h12, h13, h14, h15, h16]
  exact HW.ext (funext fun p => (h p).1) (funext fun p => (h p).2)

/-- The pin state at the start of every cycle is the same: one full
`loop()` invocation starting from `hwInit` returns the pins to `hwInit`
(last row asserted, everything else floating or pulled up). -/
lemma loop_hw_fixed (s : ScanState) (inp : CycleInput) :
    (loop s hwInit inp).2.1 = hwInit := by
  cases h : inp.enable
  · simp [loop, h]
  · simp only [loop, h, if_true]
    rw [scanRows_hwOut, checkAlphaLock_hwOut]
    exact rows_return_hwInit

@[simp] lemma sinkOps_nil : sinkOps [] = [] := rfl

@[simp] lemma sinkOps_append (a b : List Op) : sinkOps (a ++ b) = sinkOps a ++ sinkOps b := by
  simp [sinkOps, List.filter_append]

@[simp] lemma sinkOps_cons_readPin (p : Nat) (t : List Op) :
    sinkOps (Op.readPin p :: t) = sinkOps t := by
  simp [sinkOps, List.filter_cons, isSink]

@[simp] lemma sinkOps_cons_pinInput (p : Nat) (t : List Op) :
    sinkOps (Op.pinInput p :: t) = sinkOps t := by
  simp [sinkOps, List.filter_cons, isSink]

@[simp] lemma sinkOps_cons_pinInputPullup (p : Nat) (t : List Op) :
    sinkOps (Op.pinInputPullup p :: t) = sinkOps t := by
  simp [sinkOps, List.filter_cons, isSink]

@[simp] lemma sinkOps_cons_pinOutput (p : Nat) (t : List Op) :
    sinkOps (Op.pinOutput p :: t) = sinkOps t := by
  simp [sinkOps, List.filter_cons, isSink]

@[simp] lemma sinkOps_cons_writeLow (p : Nat) (t : List Op) :
    sinkOps (Op.writeLow p :: t) = sinkOps t := by
  simp [sinkOps, List.filter_cons, isSink]

@[simp] lemma sinkOps_cons_delayMs (ms : Nat) (t : List Op) :
    sinkOps (Op.delayMs ms :: t) = sinkOps t := by
  simp [sinkOps, List.filter_cons, isSink]

@[simp] lemma sinkOps_cons_press (k : Nat) (t : List Op) :
    sinkOps (Op.press k :: t) = Op.press k :: sinkOps t := by
  simp [sinkOps, List.filter_cons, isSink]

@[simp] lemma sinkOps_cons_release (k : Nat) (t : List Op) :
    sinkOps (Op.release k :: t) = Op.release k :: sinkOps t := by
  simp [sinkOps, List.filter_cons, isSink]

@[simp] lemma sinkOps_cons_releaseAll (t : List Op) :
    sinkOps (Op.releaseAll :: t) = Op.releaseAll :: sinkOps t := by
  simp [sinkOps, List.filter_cons, isSink]

lemma sinkOps_readPins (f : Nat → Nat) : ∀ l : List Nat,
    sinkOps (l.map fun j => Op.readPin (f j)) = [] := by
  intro l
  induction l with
  | nil => rfl
  | cons j rest ih => simp [ih]

lemma modifierPressed_sinkOps (hw : HW) (inp : CycleInput) :
    sinkOps (modifierPressed hw inp).2 = [] := by
  unfold modifierPressed
  split_ifs <;> rfl

/-- The column sample made by the alpha-lock probe while the lock line is
driven low and every row line floats reads the lock switch and nothing
else. -/
lemma readCol_probe (inp : CycleInput) :
    readCol
      (digitalWriteLow
        (pinModeSet (pinModeSet hwInit (rowPin (ROWS - 1)) PMode.input)
          alphaLockRowPin PMode.output)
        alphaLockRowPin) inp 7 = !inp.lockClosed := by
  have h1 : ∀ r, r < 6 →
      pinAsserted
        (digitalWriteLow
          (pinModeSet (pinModeSet hwInit (rowPin 5) PMode.input)
            alphaLockRowPin PMode.output)
          alphaLockRowPin) (rowPin r) = false := by decide
  have h2 : pinAsserted
      (digitalWriteLow
        (pinModeSet (pinModeSet hwInit (rowPin 5) PMode.input)
          alphaLockRowPin PMode.output)
        alphaLockRowPin) alphaLockRowPin = true := by decide
  simp [readCol, ROWS, range6, List.any_cons, List.any_nil, h1, h2]

/-- At the start of a cycle (pin state `hwInit`, last row still driven
from the previous pass) a column sample reads the cells of row 5, which
is where the modifier detector finds the modifier cells. -/
lemma readCol_hwInit (inp : CycleInput) (c : Nat) :
    readCol hwInit inp c = !inp.cell 5 c := by
  have h1 : ∀ r, r < 6 → pinAsserted hwInit (rowPin r) = decide (r = 5) := by decide
  have h2 : pinAsserted hwInit alphaLockRowPin = false := by decide
  simp [readCol, ROWS, range6, List.any_cons, List.any_nil, h1, h2]

/-- While row `i` of a pass is driven, a column sample reads exactly the
switch at cell `(i, j)` of the matrix. -/
lemma readCol_rowHW : ∀ i, i < ROWS → ∀ (inp : CycleInput) (j), j < COLS →
    readCol (rowHW i) inp j = !inp.cell i j := by
  have hal : ∀ k, k < 6 → pinAsserted (rowHW k) alphaLockRowPin = false := by decide
  have hrow : ∀ k, k < 6 → ∀ r, r < 6 →
      pinAsserted (rowHW k) (rowPin r) = decide (r = k) := by decide
  intro i hi inp j hj
  have hi6 : i < 6 := hi
  interval_cases i <;>
    simp [readCol, ROWS, range6, List.any_cons, List.any_nil, hal, hrow]

/-! Claims. -/

/-- Claim C7: at every instant during a cycle (enabled or not), at most
one row line is in the asserted driven-low output state, and the lock
line is driven only while no row line is asserted; in particular each row
activation floats the previously active row before driving the current
one, and the lock line is driven only after the last row has been
deactivated.  `checkTrace` checks the invariant before and after every
operation of the cycle trace, starting from the steady per-cycle pin
state `hwInit`. -/
theorem claim_C7_single_row_active (s : ScanState) (inp : CycleInput) :
    checkTrace hwInit ((loop s hwInit inp).2.2) = true := by
  cases h : inp.enable
  · simp only [loop, h, Bool.false_eq_true, if_false]
    decide
  · rw [checkTrace_filter, loop_hwOps s inp h]
    decide

/-- Claim C1: whenever a scanned cell reads asserted and the resolved key
differs from `previousKey` or `idlecount` is at least 10000, the engine
performs a fresh-press emission: the modifier hold first when one was
detected (`pressModifier modifier` is empty for modifier 0), then
`press key`, a KBD_DELAY hold, then `releaseAll`; afterwards `count` and
`idlecount` are 0 and `previousKey` is the key. -/
theorem claim_C1_fresh_press_emission (inp : CycleInput) (modifier : Nat) (hw : HW)
    (i j : Nat) (s : ScanState)
    (h1 : readCol hw inp j = false)
    (h2 : keyAt i j ≠ s.previousKey ∨ s.idlecount ≥ 10000) :
    processColumn inp modifier hw i j s =
      ({ s with previousKey := keyAt i j, count := 0, idlecount := 0 },
       Op.readPin (colPin j) ::
         (pressModifier modifier ++
          [Op.press (keyAt i j), Op.delayMs KBD_DELAY, Op.releaseAll])) := by
  simp [processColumn, h1, h2]

/-- Claim C1, witness: fresh press of the `q` key at cell (0, 6) from the
zero-initialized state, no modifier. -/
theorem claim_C1_fresh_press_emission_witness :
    processColumn inpQ 0 (rowHW 0) 0 6 s0 =
      ({ s0 with previousKey := keyAt 0 6, count := 0, idlecount := 0 },
       Op.readPin (colPin 6) ::
         (pressModifier 0 ++
          [Op.press (keyAt 0 6), Op.delayMs KBD_DELAY, Op.releaseAll])) :=
  claim_C1_fresh_press_emission inpQ 0 (rowHW 0) 0 6 s0 (by decide)
    (Or.inl (by decide))

/-- Claim C4: in every cycle the lock detector emits a caps-lock tap
(press immediately followed by release) exactly when the sampled lock
state differs from the stored latch, and the latch always ends equal to
the sampled state — so it is updated exactly on a transition and no event
or state change happens otherwise. -/
theorem claim_C4_lock_edge_trigger (inp : CycleInput) (aL : Bool) :
    sinkOps (checkAlphaLock hwInit inp aL).2.2 =
      (if inp.lockClosed = aL then []
       else [Op.press KEY_CAPS_LOCK, Op.release KEY_CAPS_LOCK]) ∧
    (checkAlphaLock hwInit inp aL).1 = inp.lockClosed := by
  simp only [checkAlphaLock, disable_lastrow]
  rw [readCol_probe]
  cases hcl : inp.lockClosed <;> cases aL <;> simp

/-- Claim C5: when the enable input reads deasserted, the cycle leaves
every piece of persisted state (including the pin state) unchanged and
no call of any kind reaches the event sink. -/
theorem claim_C5_disabled_cycle (s : ScanState) (hw : HW) (inp : CycleInput)
    (h : inp.enable = false) :
    (loop s hw inp).1 = s ∧ (loop s hw inp).2.1 = hw ∧
    sinkOps ((loop s hw inp).2.2) = [] := by
  simp [loop, h]

/-- Claim C5, witness: a disabled cycle with a key and the lock switch
electrically closed. -/
theorem claim_C5_disabled_cycle_witness :
    (loop s0 hwInit inpOff).1 = s0 ∧ (loop s0 hwInit inpOff).2.1 = hwInit ∧
    sinkOps ((loop s0 hwInit inpOff).2.2) = [] :=
  claim_C5_disabled_cycle s0 hwInit inpOff rfl

/-- Claim C6: the modifier detector returns the first asserted modifier
in the fixed priority order SHIFT, CTRL, FCTN (reading the cells of the
still-active last row) and 0 when none is asserted; in particular with
both SHIFT and CTRL asserted it returns SHIFT. -/
theorem claim_C6_modifier_priority (inp : CycleInput) :
    (modifierPressed hwInit inp).1 =
      (if inp.cell 5 SHIFT then SHIFT
       else if inp.cell 5 CTRL then CTRL
       else if inp.cell 5 FCTN then FCTN
       else 0) := by
  cases h5 : inp.cell 5 5 <;> cases h6 : inp.cell 5 6 <;> cases h7 : inp.cell 5 7 <;>
    simp [modifierPressed, readCol_hwInit, SHIFT, CTRL, FCTN, h5, h6, h7]

lemma scanCols_all_open (inp : CycleInput) (m : Nat) (hw : HW) (i : Nat) :
    ∀ (l : List Nat) (s : ScanState), (∀ j ∈ l, readCol hw inp j = true) →
      scanCols inp m hw i l s =
        ({ s with idlecount := s.idlecount + l.length },
         l.map fun j => Op.readPin (colPin j)) := by
  intro l
  induction l with
  | nil => intro s h; simp [scanCols]
  | cons j rest ih =>
    intro s h
    have hj : readCol hw inp j = true := h j (List.mem_cons_self j rest)
    have hrest : ∀ k ∈ rest, readCol hw inp k = true := fun k hk =>
      h k (List.mem_cons_of_mem j hk)
    simp [scanCols, processColumn, hj, ih _ hrest, Nat.add_comm, Nat.add_assoc,
      Nat.add_left_comm]

lemma processRow_open (inp : CycleInput) (m : Nat) (hw : HW) (prev i : Nat)
    (s : ScanState)
    (h : ∀ j, j < columns.getD i 0 → readCol (scan_row hw prev i).1 inp j = true) :
    processRow inp m hw prev i s =
      ({ s with idlecount := s.idlecount + columns.getD i 0 },
       (scan_row hw prev i).1,
       (scan_row hw prev i).2 ++
         (List.range (columns.getD i 0)).map fun j => Op.readPin (colPin j)) := by
  simp only [processRow]
  rw [scanCols_all_open inp m (scan_row hw prev i).1 i (List.range (columns.getD i 0)) s
      (fun j hj => h j (List.mem_range.mp hj))]
  simp

/-- Claim C8: a scanned row on which every column sample reads
not-pressed adds one to `idlecount` per scanned column (so `idlecount`
counts column samples across the whole matrix) and performs no emission;
and per column sample exactly one of three things happens: a not-pressed
sample increments `idlecount` and emits nothing, an emission (fresh press
or repeat, the only paths containing a `press`) resets `idlecount` to 0,
or a sustained hold below the repeat threshold emits only the trailing
`releaseAll` and leaves `idlecount` unchanged. -/
theorem claim_C8_idle_accounting :
    (∀ (inp : CycleInput) (modifier : Nat) (hw : HW) (prev i : Nat) (s : ScanState),
      (∀ j, j < columns.getD i 0 → readCol (scan_row hw prev i).1 inp j = true) →
      (processRow inp modifier hw prev i s).1 =
        { s with idlecount := s.idlecount + columns.getD i 0 } ∧
      sinkOps (processRow inp modifier hw prev i s).2.2 = []) ∧
    (∀ (inp : CycleInput) (modifier : Nat) (hw : HW) (i j : Nat) (s : ScanState),
      (readCol hw inp j = true ∧
        (processColumn inp modifier hw i j s).1.idlecount = s.idlecount + 1 ∧
        sinkOps (processColumn inp modifier hw i j s).2 = []) ∨
      (readCol hw inp j = false ∧
        Op.press (keyAt i j) ∈ (processColumn inp modifier hw i j s).2 ∧
        (processColumn inp modifier hw i j s).1.idlecount = 0) ∨
      (readCol hw inp j = false ∧
        sinkOps (processColumn inp modifier hw i j s).2 = [Op.releaseAll] ∧
        (processColumn inp modifier hw i j s).1.idlecount = s.idlecount)) := by
  constructor
  · intro inp modifier hw prev i s h
    rw [processRow_open inp modifier hw prev i s h]
    refine ⟨rfl, ?_⟩
    simp [scan_row, sinkOps_readPins]
  · intro inp modifier hw i j s
    cases hr : readCol hw inp j
    · by_cases h2 : keyAt i j ≠ s.previousKey ∨ s.idlecount ≥ 10000
      · refine Or.inr (Or.inl ⟨rfl, ?_, ?_⟩) <;> simp [processColumn, hr, h2]
      · by_cases h3 : s.count + 1 > 150
        · refine Or.inr (Or.inl ⟨rfl, ?_, ?_⟩) <;> simp [processColumn, hr, h2, h3]
        · refine Or.inr (Or.inr ⟨rfl, ?_, ?_⟩) <;> simp [processColumn, hr, h2, h3]
    · refine Or.inl ⟨rfl, ?_, ?_⟩ <;> simp [processColumn, hr]

/-- Claim C8, witness: scanning row 0 of an idle matrix from the
zero-initialized state adds 8 to `idlecount` and emits nothing. -/
theorem claim_C8_idle_accounting_witness :
    (processRow inpNone 0 hwInit 5 0 s0).1 =
      { s0 with idlecount := s0.idlecount + columns.getD 0 0 } ∧
    sinkOps (processRow inpNone 0 hwInit 5 0 s0).2.2 = [] :=
  claim_C8_idle_accounting.1 inpNone 0 hwInit 5 0 s0 (by decide)

/-- Claim C9: processing an asserted cell always ends with a
`releaseAll` call to the sink — the trace of the cell is some prefix
followed by `releaseAll` — so afterwards no key, regular or modifier, is
left held at the sink, whatever was held before. -/
theorem claim_C9_release_after_cell (inp : CycleInput) (modifier : Nat) (hw : HW)
    (i j : Nat) (s : ScanState) (h : readCol hw inp j = false) :
    (∃ t0, (processColumn inp modifier hw i j s).2 = t0 ++ [Op.releaseAll]) ∧
    ∀ held, heldAfter held ((processColumn inp modifier hw i j s).2) = [] := by
  have hsplit : ∃ t0, (processColumn inp modifier hw i j s).2 = t0 ++ [Op.releaseAll] := by
    simp only [processColumn, h, Bool.not_false, if_true]
    split_ifs
    · exact ⟨Op.readPin (colPin j) ::
        (pressModifier modifier ++ [Op.press (keyAt i j), Op.delayMs KBD_DELAY]), by simp⟩
    · exact ⟨Op.readPin (colPin j) ::
        (pressModifier modifier ++ [Op.press (keyAt i j), Op.delayMs RPT_DELAY]), by simp⟩
    · exact ⟨[Op.readPin (colPin j)], by simp⟩
  refine ⟨hsplit, fun held => ?_⟩
  obtain ⟨t0, ht⟩ := hsplit
  rw [ht]
  simp [heldAfter, List.foldl_append, heldStep]

/-- Claim C9, witness: a sustained hold of `q` with SHIFT detected, with
the sink holding left-shift beforehand, ends with nothing held. -/
theorem claim_C9_release_after_cell_witness :
    heldAfter [KEY_LEFT_SHIFT] ((processColumn inpQ SHIFT (rowHW 0) 0 6 s0).2) = [] :=
  (claim_C9_release_after_cell inpQ SHIFT (rowHW 0) 0 6 s0 (by decide)).2 [KEY_LEFT_SHIFT]

lemma rows_read_open (inp : CycleInput)
    (h : ∀ r, r < ROWS → ∀ c, c < columns.getD r 0 → inp.cell r c = false)
    (i : Nat) (hi : i < ROWS) (j : Nat) (hj : j < columns.getD i 0) :
    readCol (rowHW i) inp j = true := by
  have hcols : columns.getD i 0 ≤ 8 := by
    have hi6 : i < 6 := hi
    interval_cases i <;> simp [columns]
  have hj8 : j < COLS := lt_of_lt_of_le hj hcols
  rw [readCol_rowHW i hi inp j hj8, h i hi j hj]
  rfl

lemma processRow_open_at (inp : CycleInput) (m : Nat) (st : ScanState) (i prev : Nat)
    (hi : i < ROWS) (hw : HW) (hhw : (scan_row hw prev i).1 = rowHW i)
    (h : ∀ r, r < ROWS → ∀ c, c < columns.getD r 0 → inp.cell r c = false) :
    processRow inp m hw prev i st =
      ({ st with idlecount := st.idlecount + columns.getD i 0 },
       (scan_row hw prev i).1,
       (scan_row hw prev i).2 ++
         (List.range (columns.getD i 0)).map fun j => Op.readPin (colPin j)) :=
  processRow_open inp m hw prev i st
    (fun j hj => by rw [hhw]; exact rows_read_open inp h i hi j hj)

/-- Claim C10: in an enabled cycle in which no regular matrix cell is
closed (the modifier cells of row 5, columns 5..7, may be closed), the
matrix scan contributes nothing to the event sink — the only sink calls
of the whole cycle are those of the lock detector — and `previousKey`
and `count` are unchanged; a detected modifier alone is never sent. -/
theorem claim_C10_modifier_without_key (s : ScanState) (inp : CycleInput)
    (he : inp.enable = true)
    (h : ∀ r, r < ROWS → ∀ c, c < columns.getD r 0 → inp.cell r c = false) :
    sinkOps ((loop s hwInit inp).2.2) =
      sinkOps ((checkAlphaLock hwInit inp s.alphaLock).2.2) ∧
    (loop s hwInit inp).1.previousKey = s.previousKey ∧
    (loop s hwInit inp).1.count = s.count ∧
    (loop s hwInit inp).1.idlecount = s.idlecount + 43 := by
  have hlock : (checkAlphaLock hwInit inp s.alphaLock).2.1 = lockHW := by
    rw [checkAlphaLock_hwOut]; rfl
  have hR : List.range ROWS = [0, 1, 2, 3, 4, 5] := range6
  have hr5 : ROWS - 1 = 5 := rfl
  simp only [loop, he, if_true, hlock, hR, hr5, scanRows]
  rw [processRow_open_at inp (modifierPressed hwInit inp).1 _ 0 5 (by decide) lockHW rfl h]
  dsimp only
  rw [processRow_open_at inp (modifierPressed hwInit inp).1 _ 1 0 (by decide)
      ((scan_row lockHW 5 0).1) rfl h]
  dsimp only
  rw [processRow_open_at inp (modifierPressed hwInit inp).1 _ 2 1 (by decide)
      ((scan_row (scan_row lockHW 5 0).1 0 1).1) rfl h]
  dsimp only
  rw [processRow_open_at inp (modifierPressed hwInit inp).1 _ 3 2 (by decide)
      ((scan_row (scan_row (scan_row lockHW 5 0).1 0 1).1 1 2).1) rfl h]
  dsimp only
  rw [processRow_open_at inp (modifierPressed hwInit inp).1 _ 4 3 (by decide)
      ((scan_row (scan_row (scan_row (scan_row lockHW 5 0).1 0 1).1 1 2).1 2 3).1) rfl h]
  dsimp only
  rw [processRow_open_at inp (modifierPressed hwInit inp).1 _ 5 4 (by decide)
      ((scan_row (scan_row (scan_row (scan_row (scan_row lockHW 5 0).1 0 1).1 1 2).1
        2 3).1 3 4).1) rfl h]
  dsimp only
  refine ⟨?_, ?_, ?_, ?_⟩ <;>
    simp [scan_row, sinkOps_readPins, modifierPressed_sinkOps, columns]

/-- Claim C10, witness: a cycle with only the SHIFT cell closed sends
nothing from the scan and leaves `previousKey` and `count` untouched. -/
theorem claim_C10_modifier_without_key_witness :
    sinkOps ((loop s0 hwInit inpShiftOnly).2.2) =
      sinkOps ((checkAlphaLock hwInit inpShiftOnly s0.alphaLock).2.2) ∧
    (loop s0 hwInit inpShiftOnly).1.previousKey = s0.previousKey ∧
    (loop s0 hwInit inpShiftOnly).1.count = s0.count ∧
    (loop s0 hwInit inpShiftOnly).1.idlecount = s0.idlecount + 43 :=
  claim_C10_modifier_without_key s0 inpShiftOnly rfl (by decide)

set_option maxRecDepth 20000 in
/-- Claim C2: the typematic repeat behaviour.  First, per asserted cell
matching `previousKey` with no idle timeout: with `count + 1` at most 150
there is no emission (only the trailing `releaseAll`) and `count` is
incremented, and with `count + 1` above 150 a repeat emission fires with
RPT_DELAY (not KBD_DELAY) and `count` keeps counting.  Second, the
concrete scenario: holding `q` at cell (0, 6) from the zero-initialized
state gives the fresh-press emission on cycle 0, no press on the 150
following cycles, and exactly one repeat emission, holding RPT_DELAY, on
cycle 151 (`sustainCount` crossing 150, with no idle timeout in
between). -/
theorem claim_C2_typematic_repeat :
    (∀ (inp : CycleInput) (modifier : Nat) (hw : HW) (i j : Nat) (s : ScanState),
      readCol hw inp j = false → keyAt i j = s.previousKey → s.idlecount < 10000 →
      (s.count + 1 ≤ 150 →
        processColumn inp modifier hw i j s =
          ({ s with previousKey := keyAt i j, count := s.count + 1 },
           [Op.readPin (colPin j), Op.releaseAll])) ∧
      (150 < s.count + 1 →
        processColumn inp modifier hw i j s =
          ({ s with previousKey := keyAt i j, count := s.count + 1, idlecount := 0 },
           Op.readPin (colPin j) ::
             (pressModifier modifier ++
              [Op.press (keyAt i j), Op.delayMs RPT_DELAY, Op.releaseAll])))) ∧
    runQ 152 s0 =
      [Op.press 113, Op.delayMs KBD_DELAY, Op.releaseAll] ::
        (List.replicate 150 [Op.releaseAll] ++
          [[Op.press 113, Op.delayMs RPT_DELAY, Op.releaseAll]]) := by
  constructor
  · intro inp modifier hw i j s h1 h2 h3
    have hcond : ¬(keyAt i j ≠ s.previousKey ∨ s.idlecount ≥ 10000) := by
      push_neg
      exact ⟨h2, h3⟩
    constructor
    · intro hle
      have h150 : ¬(s.count + 1 > 150) := by omega
      simp [processColumn, h1, hcond, h150]
    · intro hgt
      simp [processColumn, h1, hcond, hgt]
  · decide

/-- Claim C2, witness: one sustained-hold step below the threshold from a
held `q`. -/
theorem claim_C2_typematic_repeat_witness :
    processColumn inpQ 0 (rowHW 0) 0 6
        { previousKey := 113, count := 3, idlecount := 5, alphaLock := false } =
      ({ previousKey := 113, count := 4, idlecount := 5, alphaLock := false },
       [Op.readPin (colPin 6), Op.releaseAll]) := by
  have h := (claim_C2_typematic_repeat.1 inpQ 0 (rowHW 0) 0 6
    { previousKey := 113, count := 3, idlecount := 5, alphaLock := false }
    (by decide) (by decide) (by decide)).1 (by decide)
  simpa using h

/-- Claim C3, counterexample: the claim states that the lock-switch probe
happens after all rows of the same cycle have been scanned; in the code
the probe (`writeLow` on the lock line, trace index 6) precedes the
activation of row 0 of the same cycle (trace index 10), on a fully idle
enabled cycle from the zero-initialized state. -/
theorem claim_C3_counterexample :
    Op.writeLow alphaLockRowPin ∈ (loop s0 hwInit inpNone).2.2 ∧
    Op.pinOutput (rowPin 0) ∈ (loop s0 hwInit inpNone).2.2 ∧
    ((loop s0 hwInit inpNone).2.2).indexOf (Op.writeLow alphaLockRowPin) <
      ((loop s0 hwInit inpNone).2.2).indexOf (Op.pinOutput (rowPin 0)) := by
  decide

/-- Claim C3, amended: in every enabled cycle the lock-switch probe is
performed before that cycle own matrix pass, immediately after the Row
Driver deactivates the last row — which was still asserted from the
previous pass (or from setup) at cycle start — so every probe happens
after all rows of the preceding pass were scanned and after the last row
was deactivated.  Formally, the pin-reconfiguration subsequence of every
enabled cycle trace is exactly the lock probe followed by the row
activations of the pass, and the last row is asserted in the cycle-start
pin state. -/
theorem claim_C3_lock_probe_order (s : ScanState) (inp : CycleInput)
    (h : inp.enable = true) :
    hwOps ((loop s hwInit inp).2.2) =
      lockProbeOps ++ scanSeqOps (List.range ROWS) (ROWS - 1) ∧
    pinAsserted hwInit (rowPin (ROWS - 1)) = true :=
  ⟨loop_hwOps s inp h, by decide⟩

/-- Claim C3, witness: the amended ordering fact evaluated on a concrete
idle enabled cycle. -/
theorem claim_C3_lock_probe_order_witness :
    hwOps ((loop s0 hwInit inpNone).2.2) =
      lockProbeOps ++ scanSeqOps (List.range ROWS) (ROWS - 1) ∧
    pinAsserted hwInit (rowPin (ROWS - 1)) = true :=
  claim_C3_lock_probe_order s0 inpNone rfl

end TiKeyboard
